import Mathlib

/-!
# Verification of the mutation-matrix / distance-estimation core (`src/model.c`)

Shallow embedding of `src/model.c` of the `andi` repository.

Conventions of the embedding:

* C `size_t` counters become `Nat`.
* C `double` becomes `CDouble`: a real number (`CDouble.fin`), or one of the
  IEEE-754 special values `+inf`, `-inf`, `NaN`.  Arithmetic on `CDouble`
  follows the IEEE-754 rules for special values exactly; arithmetic on finite
  values is exact real arithmetic (rounding is not modelled).
* Alignment characters are byte values (`Nat`); the program's alphabet is
  ASCII (nucleotide letters and the special characters mentioned in
  `model.c`, all below 128, where C `char` is nonnegative).
* The ten mutation categories of `model.h` (the header is not part of the
  sources; its values are forced by the `map4` lookup table and the category
  uses in `model.c`): `AtoA = 0, AtoC, AtoG, AtoT, CtoC, CtoG, CtoT, GtoG,
  GtoT, TtoT`, and `GtoC` is an alias for `CtoG`.
* The global `MODEL` selector (from `global.h`, also outside the sources) is
  passed as an explicit parameter; the spec lists RAW / JC / KIMURA / other.
* The GSL multinomial sampler is passed to `model_bootstrap` as an explicit
  draw function.
-/

/-- Embedding of C `double`: a finite real value or an IEEE-754 special
value.  Rounding of finite arithmetic is not modelled; the special values
behave exactly as in IEEE-754. -/
inductive CDouble where
  | fin (x : ℝ)
  | pinf
  | ninf
  | nan

namespace CDouble

/-- IEEE-754 multiplication on `CDouble` (finite part exact). -/
noncomputable def mul : CDouble → CDouble → CDouble
  | nan, _ => nan
  | _, nan => nan
  | fin x, fin y => fin (x * y)
  | fin x, pinf => if x < 0 then ninf else if x = 0 then nan else pinf
  | fin x, ninf => if x < 0 then pinf else if x = 0 then nan else ninf
  | pinf, fin y => if y < 0 then ninf else if y = 0 then nan else pinf
  | ninf, fin y => if y < 0 then pinf else if y = 0 then nan else ninf
  | pinf, pinf => pinf
  | pinf, ninf => ninf
  | ninf, pinf => ninf
  | ninf, ninf => pinf

/-- IEEE-754 subtraction on `CDouble` (finite part exact). -/
noncomputable def sub : CDouble → CDouble → CDouble
  | nan, _ => nan
  | _, nan => nan
  | fin x, fin y => fin (x - y)
  | fin _, pinf => ninf
  | fin _, ninf => pinf
  | pinf, fin _ => pinf
  | ninf, fin _ => ninf
  | pinf, pinf => nan
  | pinf, ninf => pinf
  | ninf, pinf => ninf
  | ninf, ninf => nan

/-- IEEE-754 division on `CDouble` (finite part exact; a zero divisor with a
nonzero finite dividend gives a signed infinity, `0/0` gives `NaN`; the sign
of zero is not modelled, matching the nonnegative quantities divided in
`model.c`). -/
noncomputable def div : CDouble → CDouble → CDouble
  | nan, _ => nan
  | _, nan => nan
  | fin x, fin y =>
      if y = 0 then (if x = 0 then nan else if 0 < x then pinf else ninf)
      else fin (x / y)
  | fin _, pinf => fin 0
  | fin _, ninf => fin 0
  | pinf, fin y => if y < 0 then ninf else pinf
  | ninf, fin y => if y < 0 then pinf else ninf
  | pinf, pinf => nan
  | pinf, ninf => nan
  | ninf, pinf => nan
  | ninf, ninf => nan

/-- The C library `log` on `CDouble`: `log x` for positive finite `x`,
`-inf` at zero, `NaN` on negative arguments and `-inf`, `+inf` at `+inf`. -/
noncomputable def log : CDouble → CDouble
  | nan => nan
  | pinf => pinf
  | ninf => nan
  | fin x => if x < 0 then nan else if x = 0 then ninf else fin (Real.log x)

end CDouble

/-- The C expression `dist <= 0.0 ? 0.0 : dist` ("fix negative zero" in
`model.c`): `NaN <= 0.0` and `+inf <= 0.0` are false, `-inf <= 0.0` is
true. -/
noncomputable def fix_neg_zero : CDouble → CDouble
  | CDouble.fin x => if x ≤ 0 then CDouble.fin 0 else CDouble.fin x
  | CDouble.pinf => CDouble.pinf
  | CDouble.ninf => CDouble.fin 0
  | CDouble.nan => CDouble.nan

/-- `MUTCOUNTS` from `model.h`: the number of mutation categories. -/
abbrev MUTCOUNTS : Nat := 10

/-- The mutation matrix (`model` in `model.h`): ten category counters and the
reference sequence length. -/
@[ext]
structure Model where
  counts : Fin MUTCOUNTS → Nat
  seq_len : Nat

/-- Category `AtoA` (value forced by `map4` in `model_count`). -/
def AtoA : Fin MUTCOUNTS := 0
/-- Category `AtoC`. -/
def AtoC : Fin MUTCOUNTS := 1
/-- Category `AtoG`. -/
def AtoG : Fin MUTCOUNTS := 2
/-- Category `AtoT`. -/
def AtoT : Fin MUTCOUNTS := 3
/-- Category `CtoC`. -/
def CtoC : Fin MUTCOUNTS := 4
/-- Category `CtoG`. -/
def CtoG : Fin MUTCOUNTS := 5
/-- Category `CtoT`. -/
def CtoT : Fin MUTCOUNTS := 6
/-- Category `GtoG`. -/
def GtoG : Fin MUTCOUNTS := 7
/-- Category `GtoT`. -/
def GtoT : Fin MUTCOUNTS := 8
/-- Category `TtoT`. -/
def TtoT : Fin MUTCOUNTS := 9
/-- `GtoC` is an alias for `CtoG` (`model.h`; the matrix is symmetric). -/
def GtoC : Fin MUTCOUNTS := CtoG

/-- An empty mutation matrix with the given reference length (spec §6:
"Construction of an empty MutationMatrix given a referenceLength"). -/
def mkEmpty (r : Nat) : Model := ⟨fun _ => 0, r⟩

/-- `model_sum_types` (`model.c` lines 21–27): sum the counts named by
`summands` (the `model_sum` macro passes the list of categories). -/
def model_sum_types (MM : Model) (summands : List (Fin MUTCOUNTS)) : Nat :=
  (summands.map MM.counts).sum

/-- `model_average` (`model.c` lines 39–46): component-wise sum of the
counts, plus sum of the `seq_len` fields. -/
def model_average (MM NN : Model) : Model :=
  { counts := fun i => MM.counts i + NN.counts i
    seq_len := MM.seq_len + NN.seq_len }

/-- `model_total` (`model.c` lines 54–60): sum of all ten counts. -/
def model_total (MM : Model) : Nat :=
  ∑ i : Fin MUTCOUNTS, MM.counts i

/-- `estimate_RAW` (`model.c` lines 81–91): `NAN` when the total is at most
3, otherwise the quotient of substitution count by total. -/
noncomputable def estimate_RAW (MM : Model) : CDouble :=
  let nucl := model_total MM
  let SNPs := model_sum_types MM [AtoC, AtoG, AtoT, CtoG, CtoT, GtoT]
  if nucl ≤ 3 then CDouble.nan
  else CDouble.div (CDouble.fin (SNPs : ℝ)) (CDouble.fin (nucl : ℝ))

/-- `estimate_JC` (`model.c` lines 99–105): the Jukes-Cantor correction
`-0.75 * log(1 - (4/3) * dist)` of the raw distance, with the final
`dist <= 0.0 ? 0.0 : dist`. -/
noncomputable def estimate_JC (MM : Model) : CDouble :=
  let dist := estimate_RAW MM
  let dist := CDouble.mul (CDouble.fin (-0.75))
    (CDouble.log (CDouble.sub (CDouble.fin 1.0)
      (CDouble.mul (CDouble.fin (4.0 / 3.0)) dist)))
  fix_neg_zero dist

/-- `estimate_KIMURA` (`model.c` lines 112–125): the Kimura two-parameter
distance `-0.25 * log((1 - 2Q) * (1 - 2P - Q)^2)`, with the final
`dist <= 0.0 ? 0.0 : dist`.  Note there is no small-sample guard here. -/
noncomputable def estimate_KIMURA (MM : Model) : CDouble :=
  let nucl := model_total MM
  let transitions := model_sum_types MM [AtoG, CtoT]
  let transversions := model_sum_types MM [AtoC, AtoT, GtoC, GtoT]
  let P := CDouble.div (CDouble.fin (transitions : ℝ)) (CDouble.fin (nucl : ℝ))
  let Q := CDouble.div (CDouble.fin (transversions : ℝ)) (CDouble.fin (nucl : ℝ))
  let tmp := CDouble.sub (CDouble.sub (CDouble.fin 1.0) (CDouble.mul (CDouble.fin 2.0) P)) Q
  let dist := CDouble.mul (CDouble.fin (-0.25))
    (CDouble.log (CDouble.mul (CDouble.mul
      (CDouble.sub (CDouble.fin 1.0) (CDouble.mul (CDouble.fin 2.0) Q)) tmp) tmp))
  fix_neg_zero dist

/-- The active-model selector.  Modelled from the spec: the selector lives in
`global.h`, which is not among the sources; the spec (§6) lists
"RAW / JC / KIMURA / other", and §9 asks for it to be an explicit parameter. -/
inductive ModelType where
  | M_RAW
  | M_JC
  | M_KIMURA
  | M_OTHER
deriving DecidableEq

/-- `model_bootstrap` (`model.c` lines 138–156): the multinomial sampler
(`gsl_ran_multinomial` with the global `RNG`) is passed explicitly as `draw`,
taking the requested total and the probability vector and returning the drawn
counts. -/
noncomputable def model_bootstrap (draw : Nat → (Fin MUTCOUNTS → ℝ) → Fin MUTCOUNTS → Nat)
    (MM : Model) : Model :=
  let nucl := model_total MM
  let p : Fin MUTCOUNTS → ℝ := fun i => (MM.counts i : ℝ) / (nucl : ℝ)
  let n := draw nucl p
  { MM with counts := fun i => n i }

/-- The per-character tally of the slow path of `model_count_equal`
(`model.c` lines 183–197): characters below `'A'` (65) are skipped, the rest
are bucketed by `(s >> 1) & 3`. -/
def equal_local_counts : List Nat → Nat → Nat
  | [], _ => 0
  | s :: rest, i =>
      equal_local_counts rest i +
        (if s < 65 then 0 else if (s >>> 1) &&& 3 = i then 1 else 0)

/-- `model_count_equal` (`model.c` lines 170–203).  For the models RAW, JC
and KIMURA the anchor length is split evenly over the four no-change
categories, the remainder `len & 3` going to `TtoT`; otherwise every
character of the anchor is classified individually (note the changed bucket
order `A → 0, C → 1, G → 3, T → 2` of the `0x6`-bit trick there). -/
def model_count_equal (MODEL : ModelType) (MM : Model) (S : List Nat) (len : Nat) : Model :=
  if MODEL = ModelType.M_RAW ∨ MODEL = ModelType.M_JC ∨ MODEL = ModelType.M_KIMURA then
    let fourth := len / 4
    { MM with counts := fun i =>
        MM.counts i +
          (if i = AtoA then fourth else 0) +
          (if i = CtoC then fourth else 0) +
          (if i = GtoG then fourth else 0) +
          (if i = TtoT then fourth + (len &&& 3) else 0) }
  else
    let lc := equal_local_counts (S.take len)
    { MM with counts := fun i =>
        MM.counts i +
          (if i = AtoA then lc 0 else 0) +
          (if i = CtoC then lc 1 else 0) +
          (if i = GtoG then lc 3 else 0) +
          (if i = TtoT then lc 2 else 0) }

/-- `nucl2bit` (`model.c` lines 219–223): `c &= 6; c ^= c >> 1; return
c >> 1`, mapping `A → 0, C → 1, G → 2, T → 3`. -/
def nucl2bit (c : Nat) : Nat :=
  let c1 := c &&& 6
  let c2 := c1 ^^^ (c1 >>> 1)
  c2 >>> 1

/-- The `map4` lookup table of `model_count` (`model.c` line 263). -/
def map4 : Nat := 0x9740

/-- The category index computed for one aligned pair in `model_count`
(`model.c` lines 246–265): the two 2-bit codes are ordered so that the larger
(`foo`) comes first, and the index is `((map4 >> 4*baz) & 0xf) + (foo - baz)`. -/
def mutIndex (s q : Nat) : Nat :=
  let foo := nucl2bit s
  let baz := nucl2bit q
  let foo2 := if foo < baz then baz else foo
  let baz2 := if foo < baz then foo else baz
  let base := (map4 >>> (4 * baz2)) &&& 0xf
  base + (foo2 - baz2)

/-- The `local_counts` buffer of `model_count` (`model.c` lines 234–268),
indexed by a plain natural number as the C array is: positions where either
character is below `'A'` (65) are skipped, every other position increments
the bucket `mutIndex s q`. -/
def local_counts : List (Nat × Nat) → Nat → Nat
  | [], _ => 0
  | (s, q) :: rest, i =>
      local_counts rest i +
        (if s < 65 ∨ q < 65 then 0 else if mutIndex s q = i then 1 else 0)

/-- `model_count` (`model.c` lines 233–273): tally the aligned pairs into the
local buffer, then add it to the matrix. -/
def model_count (MM : Model) (S Q : List Nat) : Model :=
  { MM with counts := fun i => MM.counts i + local_counts (S.zip Q) i.val }

/-- The number of aligned positions whose characters are both at least `'A'`
(the positions `model_count` does not skip). -/
def countValid : List (Nat × Nat) → Nat
  | [] => 0
  | (s, q) :: rest => (if s < 65 ∨ q < 65 then 0 else 1) + countValid rest

namespace CDouble

@[simp]
theorem mul_fin_fin (x y : ℝ) : mul (fin x) (fin y) = fin (x * y) := rfl

@[simp]
theorem mul_nan_left (a : CDouble) : mul nan a = nan := by
  cases a <;> rfl

@[simp]
theorem mul_fin_nan (x : ℝ) : mul (fin x) nan = nan := rfl

theorem mul_fin_ninf_of_neg {x : ℝ} (hx : x < 0) : mul (fin x) ninf = pinf := by
  simp [mul, hx]

@[simp]
theorem sub_fin_fin (x y : ℝ) : sub (fin x) (fin y) = fin (x - y) := rfl

@[simp]
theorem sub_fin_nan (x : ℝ) : sub (fin x) nan = nan := rfl

theorem div_fin_fin (x : ℝ) {y : ℝ} (hy : y ≠ 0) : div (fin x) (fin y) = fin (x / y) := by
  simp [div, hy]

@[simp]
theorem log_nan_eq : log nan = nan := rfl

theorem log_fin_of_pos {x : ℝ} (hx : 0 < x) : log (fin x) = fin (Real.log x) := by
  simp [log, not_lt.mpr hx.le, hx.ne.symm]

theorem log_fin_zero : log (fin 0) = ninf := by
  simp [log]

theorem log_fin_of_neg {x : ℝ} (hx : x < 0) : log (fin x) = nan := by
  simp [log, hx]

end CDouble

@[simp]
theorem fix_neg_zero_nan : fix_neg_zero CDouble.nan = CDouble.nan := rfl

@[simp]
theorem fix_neg_zero_pinf : fix_neg_zero CDouble.pinf = CDouble.pinf := rfl

theorem fix_neg_zero_fin_of_nonpos {x : ℝ} (h : x ≤ 0) :
    fix_neg_zero (CDouble.fin x) = CDouble.fin 0 := by
  simp [fix_neg_zero, h]

theorem fix_neg_zero_fin_of_pos {x : ℝ} (h : 0 < x) :
    fix_neg_zero (CDouble.fin x) = CDouble.fin x := by
  simp [fix_neg_zero, not_le.mpr h]

/-- `nucl2bit` always produces a 2-bit code. -/
theorem nucl2bit_lt_four (c : Nat) : nucl2bit c < 4 := by
  have h : c &&& 6 ≤ 6 := Nat.and_le_right
  simp only [nucl2bit]
  generalize hx : c &&& 6 = x at h
  interval_cases x <;> decide

/-- The category index of `model_count` is always within the ten buckets. -/
theorem mutIndex_lt_ten (s q : Nat) : mutIndex s q < 10 := by
  have hs := nucl2bit_lt_four s
  have hq := nucl2bit_lt_four q
  simp only [mutIndex]
  generalize ha : nucl2bit s = a at hs
  generalize hb : nucl2bit q = b at hq
  interval_cases a <;> interval_cases b <;> decide

/-- Summing the local buffer of `model_count` over the ten categories counts
exactly the positions that were not skipped (this uses `mutIndex_lt_ten`: no
increment falls outside the buffer). -/
theorem sum_local_counts (L : List (Nat × Nat)) :
    ∑ i : Fin MUTCOUNTS, local_counts L i.val = countValid L := by
  induction L with
  | nil => simp [local_counts, countValid]
  | cons p rest ih =>
    obtain ⟨s, q⟩ := p
    simp only [local_counts, countValid]
    rw [Finset.sum_add_distrib, ih, Nat.add_comm]
    congr 1
    by_cases h : s < 65 ∨ q < 65
    · simp [h]
    · simp only [if_neg h]
      have hm := mutIndex_lt_ten s q
      have hconv : ∀ i ∈ Finset.univ, (if mutIndex s q = (i : Fin MUTCOUNTS).val then (1 : Nat) else 0) =
          if (⟨mutIndex s q, hm⟩ : Fin MUTCOUNTS) = i then 1 else 0 := by
        intro i _
        by_cases hi : mutIndex s q = i.val
        · rw [if_pos hi, if_pos (Fin.ext hi)]
        · rw [if_neg hi, if_neg (fun hcon => hi (congrArg Fin.val hcon))]
      rw [Finset.sum_congr rfl hconv, Finset.sum_ite_eq]
      simp

/-- `model_count` adds to the total exactly the number of aligned positions
whose two characters are both at least `'A'`. -/
theorem model_total_model_count (MM : Model) (S Q : List Nat) :
    model_total (model_count MM S Q) = model_total MM + countValid (S.zip Q) := by
  simp only [model_total, model_count]
  rw [Finset.sum_add_distrib, sum_local_counts]

/-- C6: `model_average` adds the totals — `total(average(A,B)) = total(A) +
total(B)` — and is commutative and associative on the counts component; being
a pure function of its arguments, it mutates neither input. -/
theorem model_average_total_comm_assoc (A B C : Model) :
    model_total (model_average A B) = model_total A + model_total B ∧
    (∀ i, (model_average A B).counts i = (model_average B A).counts i) ∧
    (∀ i, (model_average (model_average A B) C).counts i =
      (model_average A (model_average B C)).counts i) := by
  refine ⟨?_, fun i => ?_, fun i => ?_⟩
  · simp only [model_total, model_average]
    exact Finset.sum_add_distrib
  · simp [model_average, Nat.add_comm]
  · simp [model_average, Nat.add_assoc]

/-- C5: for a matrix with positive total and any valid multinomial draw (one
whose drawn counts sum to the requested total), `model_bootstrap` returns a
matrix with the same total and the same `seq_len`; the input matrix is passed
by value and is not mutated. -/
theorem model_bootstrap_preserves_total_and_seq_len
    (draw : Nat → (Fin MUTCOUNTS → ℝ) → Fin MUTCOUNTS → Nat) (MM : Model)
    (_hM : 0 < model_total MM)
    (hdraw : ∑ i : Fin MUTCOUNTS,
        draw (model_total MM) (fun i => (MM.counts i : ℝ) / (model_total MM : ℝ)) i
      = model_total MM) :
    model_total (model_bootstrap draw MM) = model_total MM ∧
    (model_bootstrap draw MM).seq_len = MM.seq_len := by
  refine ⟨?_, rfl⟩
  simpa only [model_bootstrap, model_total] using hdraw

/-- Concrete multinomial draw used as a witness: the whole sample lands in
bucket 0 (a valid multinomial outcome). -/
def draw0 : Nat → (Fin MUTCOUNTS → ℝ) → Fin MUTCOUNTS → Nat :=
  fun n _ i => if i = 0 then n else 0

/-- A matrix with one count in every category. -/
def Mones : Model := ⟨fun _ => 1, 20⟩

theorem model_bootstrap_preserves_total_and_seq_len_witness :
    0 < model_total Mones ∧
    (∑ i : Fin MUTCOUNTS,
        draw0 (model_total Mones) (fun i => (Mones.counts i : ℝ) / (model_total Mones : ℝ)) i
      = model_total Mones) ∧
    (model_total (model_bootstrap draw0 Mones) = model_total Mones ∧
      (model_bootstrap draw0 Mones).seq_len = Mones.seq_len) := by
  have h1 : 0 < model_total Mones := by decide
  have h2 : (∑ i : Fin MUTCOUNTS,
      draw0 (model_total Mones) (fun i => (Mones.counts i : ℝ) / (model_total Mones : ℝ)) i
    = model_total Mones) := by
    simp [draw0, Finset.sum_ite_eq']
  exact ⟨h1, h2, model_bootstrap_preserves_total_and_seq_len draw0 Mones h1 h2⟩

/-- C10: for characters at least `'A'` (65) the category index computed by
`model_count` always lies in `0..9`, so every increment of the local
ten-element buffer is in bounds; consequently `model_count` increases the
total by exactly the number of positions where both characters are at least
`'A'`. -/
theorem model_count_index_in_bounds_and_total :
    (∀ s q : Nat, 65 ≤ s → 65 ≤ q → mutIndex s q < 10) ∧
    (∀ (MM : Model) (S Q : List Nat),
      model_total (model_count MM S Q) = model_total MM + countValid (S.zip Q)) :=
  ⟨fun s q _ _ => mutIndex_lt_ten s q,
   fun MM S Q => model_total_model_count MM S Q⟩

theorem model_count_index_in_bounds_and_total_witness :
    (65 ≤ 84 ∧ 65 ≤ 65 ∧ mutIndex 84 65 < 10) ∧
    model_total (model_count (mkEmpty 2) [84, 59] [65, 65]) = model_total (mkEmpty 2) + 1 :=
  ⟨⟨by decide, by decide, model_count_index_in_bounds_and_total.1 84 65 (by decide) (by decide)⟩,
   by rw [model_count_index_in_bounds_and_total.2 (mkEmpty 2) [84, 59] [65, 65]]; decide⟩

/-- C3 counterexample: the ambiguity code `'N'` (78) is *not* skipped by
`model_count` — the skip test is only `s < 'A'` — so aligning `'N'` against
`'A'` contributes one count (in category `AtoG`, because the `0x6`-bit trick
maps `'N'` to the code of `G`), refuting "any non-canonical character is
excluded from all counts". -/
theorem model_count_counts_ambiguity_N :
    model_total (model_count (mkEmpty 1) [78] [65]) = 1 ∧
    (model_count (mkEmpty 1) [78] [65]).counts AtoG = 1 :=
  ⟨by decide, by decide⟩

/-- C3 (amended): a position is skipped entirely — contributing to no count
and not to the total — exactly when either character is below `'A'` (65),
i.e. an alignment special character such as `';'`, `'!'` or `'#'`; characters
at or above `'A'` (including non-canonical ones such as `'N'`) are always
classified and counted. -/
theorem model_count_skips_below_A (MM : Model) (s q : Nat) (S Q : List Nat)
    (h : s < 65 ∨ q < 65) :
    model_count MM (s :: S) (q :: Q) = model_count MM S Q := by
  unfold model_count
  congr 1
  funext i
  show MM.counts i + local_counts ((s, q) :: S.zip Q) i.val
      = MM.counts i + local_counts (S.zip Q) i.val
  simp [local_counts, h]

theorem model_count_skips_below_A_witness :
    ((59 : Nat) < 65 ∨ (65 : Nat) < 65) ∧
    model_count (mkEmpty 4) [59] [65] = model_count (mkEmpty 4) [] [] :=
  ⟨Or.inl (by decide),
   model_count_skips_below_A (mkEmpty 4) 59 65 [] [] (Or.inl (by decide))⟩

/-- C8: counting subject `"AACGT"` against query `"AACGA"` (byte values) on
an empty matrix gives two `AtoA`, one `CtoC`, one `GtoG` and one `AtoT`
increment (and none in `TtoT`), a total of 5, and a raw distance of
exactly 0.2. -/
theorem model_count_example_AACGT_AACGA :
    (model_count (mkEmpty 5) [65, 65, 67, 71, 84] [65, 65, 67, 71, 65]).counts AtoA = 2 ∧
    (model_count (mkEmpty 5) [65, 65, 67, 71, 84] [65, 65, 67, 71, 65]).counts CtoC = 1 ∧
    (model_count (mkEmpty 5) [65, 65, 67, 71, 84] [65, 65, 67, 71, 65]).counts GtoG = 1 ∧
    (model_count (mkEmpty 5) [65, 65, 67, 71, 84] [65, 65, 67, 71, 65]).counts AtoT = 1 ∧
    (model_count (mkEmpty 5) [65, 65, 67, 71, 84] [65, 65, 67, 71, 65]).counts TtoT = 0 ∧
    model_total (model_count (mkEmpty 5) [65, 65, 67, 71, 84] [65, 65, 67, 71, 65]) = 5 ∧
    estimate_RAW (model_count (mkEmpty 5) [65, 65, 67, 71, 84] [65, 65, 67, 71, 65]) = CDouble.fin 0.2 := by
  refine ⟨by decide, by decide, by decide, by decide, by decide, by decide, ?_⟩
  have ht : model_total (model_count (mkEmpty 5) [65, 65, 67, 71, 84] [65, 65, 67, 71, 65]) = 5 := by
    decide
  have hs : model_sum_types (model_count (mkEmpty 5) [65, 65, 67, 71, 84] [65, 65, 67, 71, 65])
      [AtoC, AtoG, AtoT, CtoG, CtoT, GtoT] = 1 := by
    decide
  simp only [estimate_RAW, ht, hs]
  norm_num
  exact CDouble.div_fin_fin 1 (by norm_num)

/-- `model_total` written out over the ten categories. -/
theorem model_total_expand (MM : Model) :
    model_total MM = MM.counts 0 + MM.counts 1 + MM.counts 2 + MM.counts 3 + MM.counts 4 +
      MM.counts 5 + MM.counts 6 + MM.counts 7 + MM.counts 8 + MM.counts 9 := by
  have h : model_total MM = MM.counts 0 + (MM.counts 1 + (MM.counts 2 + (MM.counts 3 +
      (MM.counts 4 + (MM.counts 5 + (MM.counts 6 + (MM.counts 7 + (MM.counts 8 +
      (MM.counts 9 + 0))))))))) := rfl
  omega

/-- The `SNPs` sum of `estimate_RAW`, written out. -/
theorem snps_expand (MM : Model) :
    model_sum_types MM [AtoC, AtoG, AtoT, CtoG, CtoT, GtoT] =
      MM.counts 1 + (MM.counts 2 + (MM.counts 3 + (MM.counts 5 + (MM.counts 6 +
      (MM.counts 8 + 0))))) := rfl

/-- The six change categories never exceed the total of all ten. -/
theorem snps_le_total (MM : Model) :
    model_sum_types MM [AtoC, AtoG, AtoT, CtoG, CtoT, GtoT] ≤ model_total MM := by
  have h1 := model_total_expand MM
  have h2 := snps_expand MM
  omega

/-- `estimate_RAW` on a matrix with more than 3 counted positions. -/
theorem estimate_RAW_of_big (MM : Model) (hn : 3 < model_total MM) :
    estimate_RAW MM =
      CDouble.fin ((model_sum_types MM [AtoC, AtoG, AtoT, CtoG, CtoT, GtoT] : ℝ) /
        (model_total MM : ℝ)) := by
  have hne : (model_total MM : ℝ) ≠ 0 := Nat.cast_ne_zero.mpr (by omega)
  simp only [estimate_RAW]
  rw [if_neg (by omega)]
  exact CDouble.div_fin_fin _ hne

/-- `estimate_RAW` is zero when no change category is populated (and the
total is large enough to be defined). -/
theorem estimate_RAW_zero (MM : Model)
    (hS : model_sum_types MM [AtoC, AtoG, AtoT, CtoG, CtoT, GtoT] = 0)
    (hn : 3 < model_total MM) : estimate_RAW MM = CDouble.fin 0 := by
  rw [estimate_RAW_of_big MM hn, hS]
  norm_num

/-- `estimate_JC` of a matrix whose raw distance is exactly zero. -/
theorem estimate_JC_of_raw_zero (MM : Model) (hR : estimate_RAW MM = CDouble.fin 0) :
    estimate_JC MM = CDouble.fin 0 := by
  simp only [estimate_JC, hR, CDouble.mul_fin_fin, CDouble.sub_fin_fin]
  norm_num
  rw [CDouble.log_fin_of_pos one_pos, Real.log_one, CDouble.mul_fin_fin]
  norm_num
  exact fix_neg_zero_fin_of_nonpos le_rfl

/-- `estimate_KIMURA` of a matrix with no transitions and no transversions
(and a nonzero total) is exactly zero — note this needs no lower bound on the
total beyond being nonzero, because `estimate_KIMURA` has no small-sample
guard. -/
theorem estimate_KIMURA_of_no_changes (MM : Model)
    (hts : model_sum_types MM [AtoG, CtoT] = 0)
    (htv : model_sum_types MM [AtoC, AtoT, GtoC, GtoT] = 0)
    (hn : model_total MM ≠ 0) : estimate_KIMURA MM = CDouble.fin 0 := by
  have hne : (model_total MM : ℝ) ≠ 0 := Nat.cast_ne_zero.mpr hn
  simp only [estimate_KIMURA, hts, htv, Nat.cast_zero]
  rw [CDouble.div_fin_fin 0 hne, zero_div]
  simp only [CDouble.mul_fin_fin, CDouble.sub_fin_fin]
  norm_num
  rw [CDouble.log_fin_of_pos one_pos, Real.log_one, CDouble.mul_fin_fin]
  norm_num
  exact fix_neg_zero_fin_of_nonpos le_rfl

/-- C1 (amended): for a matrix with `total ≤ 3`, `estimate_RAW` returns the
NaN sentinel and `estimate_JC` propagates it unchanged; `estimate_KIMURA`,
however, has no small-sample guard (see the counterexample). -/
theorem estimate_RAW_JC_nan_of_small_total (MM : Model) (h : model_total MM ≤ 3) :
    estimate_RAW MM = CDouble.nan ∧ estimate_JC MM = CDouble.nan := by
  have hR : estimate_RAW MM = CDouble.nan := by
    simp [estimate_RAW, h]
  refine ⟨hR, ?_⟩
  simp [estimate_JC, hR]

theorem estimate_RAW_JC_nan_of_small_total_witness :
    model_total (mkEmpty 7) ≤ 3 ∧
    (estimate_RAW (mkEmpty 7) = CDouble.nan ∧ estimate_JC (mkEmpty 7) = CDouble.nan) :=
  ⟨by decide, estimate_RAW_JC_nan_of_small_total (mkEmpty 7) (by decide)⟩

/-- A matrix with a single `AtoA` count. -/
def MA1 : Model := ⟨fun i => if i = AtoA then 1 else 0, 1⟩

/-- C1 counterexample: `estimate_KIMURA` does not return the undefined
sentinel for every matrix with `total ≤ 3` — on a matrix with a single
`AtoA` count (total 1) it returns the defined value 0, because unlike
`estimate_RAW` it never checks the sample size. -/
theorem estimate_KIMURA_defined_at_small_total :
    model_total MA1 = 1 ∧ estimate_KIMURA MA1 = CDouble.fin 0 ∧
      CDouble.fin (0 : ℝ) ≠ CDouble.nan := by
  have ht : model_total MA1 = 1 := by decide
  have h1 : model_sum_types MA1 [AtoG, CtoT] = 0 := by decide
  have h2 : model_sum_types MA1 [AtoC, AtoT, GtoC, GtoT] = 0 := by decide
  exact ⟨ht, estimate_KIMURA_of_no_changes MA1 h1 h2 (by omega),
    fun hcon => nomatch hcon⟩

/-- C4 counterexample: the raw distance is not always below 1 — on a matrix
whose four counted positions are all substitutions, `estimate_RAW` equals
exactly 1, which is outside the half-open interval `[0, 1)`. -/
def M4 : Model := ⟨fun i => if i = AtoC then 4 else 0, 4⟩

theorem estimate_RAW_reaches_one :
    3 < model_total M4 ∧ estimate_RAW M4 = CDouble.fin 1 ∧ ¬ ((1 : ℝ) < 1) := by
  have ht : model_total M4 = 4 := by decide
  have hs : model_sum_types M4 [AtoC, AtoG, AtoT, CtoG, CtoT, GtoT] = 4 := by decide
  refine ⟨by omega, ?_, by norm_num⟩
  rw [estimate_RAW_of_big M4 (by omega), ht, hs]
  norm_num

/-- C4 (amended): `estimate_RAW` is NaN when the total is at most 3, and
otherwise equals `SNPs / total`, which always lies in the *closed* interval
`[0, 1]` (the value 1 is attained when every counted position is a
substitution). -/
theorem estimate_RAW_nan_or_unit_interval (MM : Model) :
    (model_total MM ≤ 3 → estimate_RAW MM = CDouble.nan) ∧
    (3 < model_total MM →
      estimate_RAW MM =
        CDouble.fin ((model_sum_types MM [AtoC, AtoG, AtoT, CtoG, CtoT, GtoT] : ℝ) /
          (model_total MM : ℝ)) ∧
      0 ≤ (model_sum_types MM [AtoC, AtoG, AtoT, CtoG, CtoT, GtoT] : ℝ) /
          (model_total MM : ℝ) ∧
      (model_sum_types MM [AtoC, AtoG, AtoT, CtoG, CtoT, GtoT] : ℝ) /
          (model_total MM : ℝ) ≤ 1) := by
  constructor
  · intro h
    simp [estimate_RAW, h]
  · intro h
    have hpos : (0 : ℝ) < (model_total MM : ℝ) := by
      exact_mod_cast Nat.pos_of_ne_zero (by omega)
    refine ⟨estimate_RAW_of_big MM h, by positivity, ?_⟩
    rw [div_le_one hpos]
    exact_mod_cast snps_le_total MM

theorem estimate_RAW_nan_or_unit_interval_witness :
    3 < model_total Mones ∧
    (estimate_RAW Mones =
        CDouble.fin ((model_sum_types Mones [AtoC, AtoG, AtoT, CtoG, CtoT, GtoT] : ℝ) /
          (model_total Mones : ℝ)) ∧
      0 ≤ (model_sum_types Mones [AtoC, AtoG, AtoT, CtoG, CtoT, GtoT] : ℝ) /
          (model_total Mones : ℝ) ∧
      (model_sum_types Mones [AtoC, AtoG, AtoT, CtoG, CtoT, GtoT] : ℝ) /
          (model_total Mones : ℝ) ≤ 1) :=
  ⟨by decide, (estimate_RAW_nan_or_unit_interval Mones).2 (by decide)⟩

/-- A matrix with three `AtoC` substitutions and one `AtoA` match: its raw
distance is exactly 3/4. -/
def M2 : Model := ⟨fun i => if i = AtoC then 3 else if i = AtoA then 1 else 0, 4⟩

/-- C2 counterexample: when the raw distance is exactly 0.75 the logarithm
argument `1 - (4/3)·d_raw` is exactly zero, `log` returns `-inf`, and
`estimate_JC` returns `+inf` — an infinity, not the NaN sentinel — refuting
"never an infinity" for the boundary case of `1 - (4/3)·d_raw ≤ 0`. -/
theorem estimate_JC_inf_at_saturation :
    model_total M2 = 4 ∧ estimate_JC M2 = CDouble.pinf ∧
      CDouble.pinf ≠ CDouble.nan := by
  have ht : model_total M2 = 4 := by decide
  have hs : model_sum_types M2 [AtoC, AtoG, AtoT, CtoG, CtoT, GtoT] = 3 := by decide
  have hR : estimate_RAW M2 = CDouble.fin (3 / 4) := by
    rw [estimate_RAW_of_big M2 (by omega), ht, hs]
    norm_num
  refine ⟨ht, ?_, fun hcon => nomatch hcon⟩
  simp only [estimate_JC, hR, CDouble.mul_fin_fin, CDouble.sub_fin_fin]
  norm_num
  rw [CDouble.log_fin_zero, CDouble.mul_fin_ninf_of_neg (by norm_num), fix_neg_zero_pinf]

/-- C2 (amended): for a matrix with `total > 3` whose raw distance makes the
logarithm argument *strictly* negative (`1 - (4/3)·d_raw < 0`), `estimate_JC`
returns the NaN sentinel; at exactly `1 - (4/3)·d_raw = 0` it instead
returns `+inf` (see the counterexample). -/
theorem estimate_JC_nan_of_oversaturated (MM : Model)
    (hn : 3 < model_total MM)
    (harg : (1 : ℝ) - 4 / 3 * ((model_sum_types MM [AtoC, AtoG, AtoT, CtoG, CtoT, GtoT] : ℝ) /
      (model_total MM : ℝ)) < 0) :
    estimate_JC MM = CDouble.nan := by
  have hR := estimate_RAW_of_big MM hn
  have harg' : (1.0 : ℝ) - 4.0 / 3.0 *
      ((model_sum_types MM [AtoC, AtoG, AtoT, CtoG, CtoT, GtoT] : ℝ) /
        (model_total MM : ℝ)) < 0 := by
    norm_num at harg ⊢
    exact harg
  simp only [estimate_JC, hR, CDouble.mul_fin_fin, CDouble.sub_fin_fin]
  rw [CDouble.log_fin_of_neg harg', CDouble.mul_fin_nan, fix_neg_zero_nan]

theorem estimate_JC_nan_of_oversaturated_witness :
    (3 < model_total M4 ∧
      (1 : ℝ) - 4 / 3 * ((model_sum_types M4 [AtoC, AtoG, AtoT, CtoG, CtoT, GtoT] : ℝ) /
        (model_total M4 : ℝ)) < 0) ∧
    estimate_JC M4 = CDouble.nan := by
  have h1 : 3 < model_total M4 := by decide
  have h2 : (1 : ℝ) - 4 / 3 * ((model_sum_types M4 [AtoC, AtoG, AtoT, CtoG, CtoT, GtoT] : ℝ) /
      (model_total M4 : ℝ)) < 0 := by
    have ht : model_total M4 = 4 := by decide
    have hs : model_sum_types M4 [AtoC, AtoG, AtoT, CtoG, CtoT, GtoT] = 4 := by decide
    rw [ht, hs]
    norm_num
  exact ⟨⟨h1, h2⟩, estimate_JC_nan_of_oversaturated M4 h1 h2⟩

/-- The `transitions` sum of `estimate_KIMURA`, written out. -/
theorem transitions_expand (MM : Model) :
    model_sum_types MM [AtoG, CtoT] = MM.counts 2 + (MM.counts 6 + 0) := rfl

/-- The `transversions` sum of `estimate_KIMURA`, written out
(`GtoC` is the alias of `CtoG`, index 5). -/
theorem transversions_expand (MM : Model) :
    model_sum_types MM [AtoC, AtoT, GtoC, GtoT] =
      MM.counts 1 + (MM.counts 3 + (MM.counts 5 + (MM.counts 8 + 0))) := rfl

/-- C7: for an anchor of length `L ≥ 4` under an active model RAW, JC or
KIMURA, the fast path of `model_count_equal` on an empty matrix makes the
four no-change categories sum to exactly `L` (the remainder `L mod 4` lands
in `TtoT`), and all three estimators then return exactly 0. -/
theorem model_count_equal_fast_path (MODEL : ModelType) (S : List Nat) (r L : Nat)
    (hMOD : MODEL = ModelType.M_RAW ∨ MODEL = ModelType.M_JC ∨ MODEL = ModelType.M_KIMURA)
    (hL : 4 ≤ L) :
    (model_count_equal MODEL (mkEmpty r) S L).counts AtoA +
      (model_count_equal MODEL (mkEmpty r) S L).counts CtoC +
      (model_count_equal MODEL (mkEmpty r) S L).counts GtoG +
      (model_count_equal MODEL (mkEmpty r) S L).counts TtoT = L ∧
    estimate_RAW (model_count_equal MODEL (mkEmpty r) S L) = CDouble.fin 0 ∧
    estimate_JC (model_count_equal MODEL (mkEmpty r) S L) = CDouble.fin 0 ∧
    estimate_KIMURA (model_count_equal MODEL (mkEmpty r) S L) = CDouble.fin 0 := by
  have hmod4 : L &&& 3 = L % 4 := by
    have h := Nat.and_pow_two_sub_one_eq_mod L 2
    norm_num at h
    exact h
  have hc : ∀ i : Fin MUTCOUNTS, (model_count_equal MODEL (mkEmpty r) S L).counts i =
      (if i = AtoA then L / 4 else 0) + (if i = CtoC then L / 4 else 0) +
      (if i = GtoG then L / 4 else 0) + (if i = TtoT then L / 4 + (L &&& 3) else 0) := by
    intro i
    unfold model_count_equal
    rw [if_pos hMOD]
    simp [mkEmpty]
  have htot : model_total (model_count_equal MODEL (mkEmpty r) S L) = L := by
    rw [model_total_expand, hc 0, hc 1, hc 2, hc 3, hc 4, hc 5, hc 6, hc 7, hc 8, hc 9]
    simp +decide [hmod4]
    omega
  have hSNP : model_sum_types (model_count_equal MODEL (mkEmpty r) S L)
      [AtoC, AtoG, AtoT, CtoG, CtoT, GtoT] = 0 := by
    rw [snps_expand, hc 1, hc 2, hc 3, hc 5, hc 6, hc 8]
    simp +decide
  have hts : model_sum_types (model_count_equal MODEL (mkEmpty r) S L) [AtoG, CtoT] = 0 := by
    rw [transitions_expand, hc 2, hc 6]
    simp +decide
  have htv : model_sum_types (model_count_equal MODEL (mkEmpty r) S L)
      [AtoC, AtoT, GtoC, GtoT] = 0 := by
    rw [transversions_expand, hc 1, hc 3, hc 5, hc 8]
    simp +decide
  have hRAW : estimate_RAW (model_count_equal MODEL (mkEmpty r) S L) = CDouble.fin 0 :=
    estimate_RAW_zero _ hSNP (by omega)
  refine ⟨?_, hRAW, estimate_JC_of_raw_zero _ hRAW,
    estimate_KIMURA_of_no_changes _ hts htv (by omega)⟩
  rw [hc AtoA, hc CtoC, hc GtoG, hc TtoT]
  simp +decide [hmod4]
  omega

theorem model_count_equal_fast_path_witness :
    ((ModelType.M_RAW = ModelType.M_RAW ∨ ModelType.M_RAW = ModelType.M_JC ∨
        ModelType.M_RAW = ModelType.M_KIMURA) ∧ 4 ≤ 5) ∧
    ((model_count_equal ModelType.M_RAW (mkEmpty 0) [] 5).counts AtoA +
      (model_count_equal ModelType.M_RAW (mkEmpty 0) [] 5).counts CtoC +
      (model_count_equal ModelType.M_RAW (mkEmpty 0) [] 5).counts GtoG +
      (model_count_equal ModelType.M_RAW (mkEmpty 0) [] 5).counts TtoT = 5 ∧
    estimate_RAW (model_count_equal ModelType.M_RAW (mkEmpty 0) [] 5) = CDouble.fin 0 ∧
    estimate_JC (model_count_equal ModelType.M_RAW (mkEmpty 0) [] 5) = CDouble.fin 0 ∧
    estimate_KIMURA (model_count_equal ModelType.M_RAW (mkEmpty 0) [] 5) = CDouble.fin 0) :=
  ⟨⟨Or.inl rfl, by decide⟩,
   model_count_equal_fast_path ModelType.M_RAW [] 0 5 (Or.inl rfl) (by decide)⟩

/-- C9: whenever `estimate_RAW` and `estimate_JC` both return finite values
(not the undefined sentinel), the Jukes-Cantor correction never decreases the
estimate: `estimate_JC(M) ≥ estimate_RAW(M)`. -/
theorem estimate_JC_ge_estimate_RAW (MM : Model) (x y : ℝ)
    (hR : estimate_RAW MM = CDouble.fin x) (hJ : estimate_JC MM = CDouble.fin y) :
    x ≤ y := by
  by_cases hn : model_total MM ≤ 3
  · simp only [estimate_RAW] at hR
    rw [if_pos hn] at hR
    exact absurd hR (fun hcon => nomatch hcon)
  · push_neg at hn
    have hR' := estimate_RAW_of_big MM hn
    rw [hR'] at hR
    injection hR with hxd
    simp only [estimate_JC, hR', CDouble.mul_fin_fin, CDouble.sub_fin_fin] at hJ
    set d : ℝ := (model_sum_types MM [AtoC, AtoG, AtoT, CtoG, CtoT, GtoT] : ℝ) /
      (model_total MM : ℝ) with hd_def
    rcases lt_trichotomy ((1.0 : ℝ) - 4.0 / 3.0 * d) 0 with hlt | heq | hgt
    · rw [CDouble.log_fin_of_neg hlt, CDouble.mul_fin_nan, fix_neg_zero_nan] at hJ
      exact absurd hJ (fun hcon => nomatch hcon)
    · rw [heq, CDouble.log_fin_zero, CDouble.mul_fin_ninf_of_neg (by norm_num),
        fix_neg_zero_pinf] at hJ
      exact absurd hJ (fun hcon => nomatch hcon)
    · rw [CDouble.log_fin_of_pos hgt, CDouble.mul_fin_fin] at hJ
      simp only [fix_neg_zero] at hJ
      split_ifs at hJ with hcl
      · injection hJ with hy
        have hla : (0 : ℝ) ≤ Real.log (1.0 - 4.0 / 3.0 * d) := by nlinarith
        have hone : (1 : ℝ) ≤ 1.0 - 4.0 / 3.0 * d := (Real.log_nonneg_iff hgt).mp hla
        have hd0 : d ≤ 0 := by norm_num at hone; linarith
        rw [← hxd, ← hy]
        linarith
      · injection hJ with hy
        have hlog := Real.log_le_sub_one_of_pos hgt
        rw [← hxd, ← hy]
        norm_num at hlog ⊢
        nlinarith

/-- A matrix with four `AtoA` counts: both estimators are defined (both 0). -/
def MAA4 : Model := ⟨fun i => if i = AtoA then 4 else 0, 4⟩

theorem estimate_JC_ge_estimate_RAW_witness :
    estimate_RAW MAA4 = CDouble.fin 0 ∧ estimate_JC MAA4 = CDouble.fin 0 ∧
      (0 : ℝ) ≤ 0 := by
  have hR : estimate_RAW MAA4 = CDouble.fin 0 :=
    estimate_RAW_zero MAA4 (by decide) (by decide)
  have hJ : estimate_JC MAA4 = CDouble.fin 0 := estimate_JC_of_raw_zero MAA4 hR
  exact ⟨hR, hJ, estimate_JC_ge_estimate_RAW MAA4 0 0 hR hJ⟩
